import Mathlib

/-!
Verification of the conversation engine and tree validator of the
`wa-leads-api` repository.

The engine is the tree-parametric `processInbound` of `src/bot/tree.ts`
(the variant the webhook route calls with the tenant tree), together with
its helpers `resolveNodeKey`, `parseInboundAnswer`, `matchOption` and
`buildResponseAction`.  The validator is `tenantTreeNodesSchema` of
`src/lib/tenantTree.ts` (the `superRefine` variant that checks reference
closure).

Modelling conventions:
* a JavaScript object used as a string-keyed map is an association list
  `List (String × α)`; lookup returns the first binding, assignment
  replaces in place or appends (JS objects have unique keys, so on the
  images of actual JS objects the two semantics agree);
* a JavaScript value that may be `undefined` is an `Option`;
* a TypeScript function that can throw a `TypeError` (by reading a field
  of `undefined`) returns `Option` and models the throw as `none`;
* JS string truthiness (`undefined` and `""` are falsy) is `strTruthy`.
-/

namespace WaLeads

/-- `Option` of `src/bot/tree.ts` (an entry of a list/buttons node);
named `TreeOption` because `Option` is taken in Lean. -/
structure TreeOption where
  id : String
  title : String
  next : String
  deriving Repr, DecidableEq

/-- `Node` of `src/bot/tree.ts`: the discriminated union
`ListNode | ButtonsNode | TextNode | EndNode`, each extending `BaseNode`
(`body`, optional `saveAs`).  The `end` variant is `end_` because `end`
is a Lean keyword. -/
inductive Node where
  | text (body : String) (saveAs : Option String) (next : String)
  | list (body : String) (saveAs : Option String) (options : List TreeOption)
  | buttons (body : String) (saveAs : Option String) (options : List TreeOption)
  | end_ (body : String) (saveAs : Option String)
  deriving Repr, DecidableEq

/-- The `saveAs` field common to all node variants. -/
def Node.saveAs : Node → Option String
  | .text _ sa _ => sa
  | .list _ sa _ => sa
  | .buttons _ sa _ => sa
  | .end_ _ sa => sa

/-- `node.type === 'end'`. -/
def Node.isEnd : Node → Bool
  | .end_ _ _ => true
  | _ => false

/-- The nodes mapping of a `TreeDefinition`, as an association list in
insertion order. -/
abbrev NodeMap := List (String × Node)

/-- `TreeDefinition` of `src/bot/tree.ts`. -/
structure TreeDefinition where
  nodes : NodeMap
  deriving Repr, DecidableEq

/-- `obj[k]` on a string-keyed JS object: the first binding for `k`,
`none` when absent (JS `undefined`). -/
def lookupKey (m : List (String × α)) (k : String) : Option α :=
  (m.find? (fun p => p.1 == k)).map (·.2)

/-- `obj[k] = v` on a string-keyed JS object: replace the existing
binding in place, else append. -/
def setKey (m : List (String × α)) (k : String) (v : α) : List (String × α) :=
  match m with
  | [] => [(k, v)]
  | p :: rest => if p.1 == k then (k, v) :: rest else p :: setKey rest k v

/-- JS truthiness of a `string | undefined` value: `undefined` and the
empty string are falsy. -/
def strTruthy : Option String → Bool
  | none => false
  | some s => !(s == "")

/-- JS `String.prototype.trim()`: drop whitespace from both ends.
Defined by structural recursion over the character list so that concrete
inputs evaluate inside the kernel (the core `String.trim` does not). -/
def jsTrim (s : String) : String :=
  String.mk (((s.data.dropWhile Char.isWhitespace).reverse.dropWhile Char.isWhitespace).reverse)

/-- JS `String.prototype.toLowerCase()` on the repertoire the repository
uses (per-character case mapping), defined over the character list so
that concrete inputs evaluate inside the kernel. -/
def jsToLower (s : String) : String :=
  String.mk (s.data.map Char.toLower)

/-- `ResponseAction` of `src/bot/tree.ts`; list/buttons options are the
`{id, title}` pairs. -/
inductive ResponseAction where
  | text (body : String)
  | list (body : String) (options : List (String × String))
  | buttons (body : String) (options : List (String × String))
  | end_ (body : String)
  deriving Repr, DecidableEq

/-- The default tree constant `TREE` of `src/bot/tree.ts`. -/
def TREE : TreeDefinition :=
  { nodes :=
      [ ("start", .list "¿Qué te interesa?" (some "service")
          [ ⟨"rent", "Renta", "date"⟩
          , ⟨"dj", "DJ", "date"⟩
          , ⟨"quote", "Cotización", "date"⟩ ])
      , ("date", .text "¿Para qué fecha lo necesitas?" (some "date") "city")
      , ("city", .buttons "¿En qué ciudad será el evento?" (some "city")
          [ ⟨"saltillo", "Saltillo", "budget"⟩
          , ⟨"ramos", "Ramos", "budget"⟩
          , ⟨"arteaga", "Arteaga", "budget"⟩ ])
      , ("budget", .buttons "¿Cuál es tu presupuesto aproximado?" (some "budget")
          [ ⟨"$", "$", "done"⟩
          , ⟨"$$", "$$", "done"⟩
          , ⟨"$$$", "$$$", "done"⟩ ])
      , ("done", .end_ "Gracias. Ya tengo tus datos; en breve te contactamos para darte seguimiento." none)
      ] }

/-- `InboundMessage` of `src/bot/engine.ts`/`tree.ts`: `text` carries a
body, `interactive` carries optional button-reply / list-reply ids, and
`other` stands for every value whose shape passes neither
`isTextMessage` nor `isInteractiveMessage` (unrecognized `type`, or a
recognized `type` with a malformed payload). -/
inductive InboundMessage where
  | text (body : String)
  | interactive (button_reply : Option String) (list_reply : Option String)
  | other (type : String)
  deriving Repr, DecidableEq

/-- `ConversationState`. -/
structure ConversationState where
  currentNodeKey : Option String
  answers : List (String × String)
  deriving Repr, DecidableEq

/-- `ProcessInboundOutput`. -/
structure ProcessInboundOutput where
  nextNodeKey : String
  updatedAnswers : List (String × String)
  responseAction : ResponseAction
  shouldHandoff : Bool
  deriving Repr, DecidableEq

/-- `buildResponseAction` of `src/bot/tree.ts` on a defined node. -/
def buildResponseAction : Node → ResponseAction
  | .text body _ _ => .text body
  | .list body _ opts => .list body (opts.map (fun o => (o.id, o.title)))
  | .buttons body _ opts => .buttons body (opts.map (fun o => (o.id, o.title)))
  | .end_ body _ => .end_ body

/-- `buildResponseAction` applied to a possibly-`undefined` node: reading
`node.type` of `undefined` throws, modelled as `none`. -/
def buildResponseAction? : Option Node → Option ResponseAction
  | none => none
  | some n => some (buildResponseAction n)

/-- `parseInboundAnswer` of `src/bot/tree.ts`. -/
def parseInboundAnswer : InboundMessage → Option String
  | .text body => some (jsTrim body)
  | .interactive br lr =>
      match br with
      | some buttonId => some buttonId
      | none =>
          match lr with
          | some listId => some listId
          | none => none
  | .other _ => none

/-- `matchOption` of `src/bot/tree.ts`: on a list/buttons node, the first
option whose lower-cased `id` or `title` equals the trimmed, lower-cased
answer. -/
def matchOption (node : Node) (answer : String) : Option TreeOption :=
  match node with
  | .list _ _ opts =>
      opts.find? (fun opt =>
        jsToLower opt.id == jsToLower (jsTrim answer) || jsToLower opt.title == jsToLower (jsTrim answer))
  | .buttons _ _ opts =>
      opts.find? (fun opt =>
        jsToLower opt.id == jsToLower (jsTrim answer) || jsToLower opt.title == jsToLower (jsTrim answer))
  | _ => none

/-- The tail of `resolveNodeKey` (`src/bot/tree.ts` lines 179-181): prefer
`start` when present, else the first key, else the literal `"start"`. -/
def resolveFallback (nodes : NodeMap) : String :=
  if (lookupKey nodes "start").isSome then "start"
  else
    match nodes with
    | [] => "start"
    | p :: _ => p.1

/-- `resolveNodeKey` of `src/bot/tree.ts`: the candidate itself when it is
truthy and bound in `nodes`, else the fallback. -/
def resolveNodeKey (nodes : NodeMap) (candidate : Option String) : String :=
  match candidate with
  | some c => if !(c == "") && (lookupKey nodes c).isSome then c else resolveFallback nodes
  | none => resolveFallback nodes

/-- `tree?.nodes ?? TREE.nodes`. -/
def nodesOf (tree? : Option TreeDefinition) : NodeMap :=
  match tree? with
  | some t => t.nodes
  | none => TREE.nodes

/-- The local `fallbackKey` of `processInbound`:
`resolveNodeKey(nodes, 'start')`. -/
def fallbackKeyOf (nodes : NodeMap) : String :=
  resolveNodeKey nodes (some "start")

/-- The local `currentNodeKey` of `processInbound`:
`resolveNodeKey(nodes, conversation.currentNodeKey ?? fallbackKey)`. -/
def currentKeyOf (nodes : NodeMap) (conversation : ConversationState) : String :=
  resolveNodeKey nodes (some (conversation.currentNodeKey.getD (fallbackKeyOf nodes)))

/-- The local `currentNode` of `processInbound`:
`nodes[currentNodeKey] ?? nodes[fallbackKey]` (possibly `undefined`). -/
def currentNodeOf (nodes : NodeMap) (conversation : ConversationState) : Option Node :=
  match lookupKey nodes (currentKeyOf nodes conversation) with
  | some n => some n
  | none => lookupKey nodes (fallbackKeyOf nodes)

/-- The local `startNode` of `processInbound`:
`nodes[fallbackKey] ?? nodes[currentNodeKey]` (possibly `undefined`). -/
def startNodeOf (nodes : NodeMap) (conversation : ConversationState) : Option Node :=
  match lookupKey nodes (fallbackKeyOf nodes) with
  | some n => some n
  | none => lookupKey nodes (currentKeyOf nodes conversation)

/-- The next-node key the advance step determines from the current node
and a truthy answer (`src/bot/tree.ts` lines 228-235): a text node's
`next`, a matched option's `next`, nothing otherwise. -/
def nextKeyFor (node : Node) (answer : String) : Option String :=
  match node with
  | .text _ _ nxt => some nxt
  | .list _ _ _ => (matchOption node answer).map TreeOption.next
  | .buttons _ _ _ => (matchOption node answer).map TreeOption.next
  | .end_ _ _ => none

/-- `if (currentNode?.saveAs) updatedAnswers[currentNode.saveAs] = answer`
(`src/bot/tree.ts` line 226); a falsy (`undefined` or empty) `saveAs`
writes nothing. -/
def recordAnswer (currentNode? : Option Node) (answers : List (String × String))
    (answer : String) : List (String × String) :=
  match currentNode? with
  | none => answers
  | some n =>
      match n.saveAs with
      | none => answers
      | some k => if k == "" then answers else setKey answers k answer

/-- `processInbound` of `src/bot/tree.ts` (lines 184-262).  Returns
`none` exactly when the TypeScript would throw a `TypeError` (reading
`.type` of an `undefined` node), which can only happen for trees without
any usable node. -/
def processInbound (conversation : ConversationState) (inboundMessage : InboundMessage)
    (tree? : Option TreeDefinition) : Option ProcessInboundOutput :=
  let nodes := nodesOf tree?
  let fallbackKey := fallbackKeyOf nodes
  let currentNodeKey := currentKeyOf nodes conversation
  let currentNode? := currentNodeOf nodes conversation
  let updatedAnswers := conversation.answers
  let answer? := parseInboundAnswer inboundMessage
  let startNode? := startNodeOf nodes conversation
  if (currentNode?.map Node.isEnd).getD false then
    (buildResponseAction? startNode?).map
      (fun ra => ⟨fallbackKey, updatedAnswers, ra, false⟩)
  else if !(strTruthy answer?) then
    if currentNodeKey == fallbackKey then
      (buildResponseAction? startNode?).map
        (fun ra => ⟨fallbackKey, updatedAnswers, ra, false⟩)
    else
      (buildResponseAction? currentNode?).map
        (fun ra => ⟨currentNodeKey, updatedAnswers, ra, false⟩)
  else
    let answer := answer?.getD ""
    let updatedAnswers := recordAnswer currentNode? updatedAnswers answer
    let nextNodeKey? := (currentNode?.map (fun n => nextKeyFor n answer)).getD none
    if !(strTruthy nextNodeKey?) then
      if currentNodeKey == fallbackKey then
        (buildResponseAction? startNode?).map
          (fun ra => ⟨fallbackKey, updatedAnswers, ra, false⟩)
      else
        (buildResponseAction? currentNode?).map
          (fun ra => ⟨currentNodeKey, updatedAnswers, ra, false⟩)
    else
      let nextNodeKey := nextNodeKey?.getD ""
      let nextNode? :=
        match lookupKey nodes nextNodeKey with
        | some n => some n
        | none => startNode?
      match nextNode? with
      | none => none
      | some nextNode =>
          some ⟨nextNodeKey, updatedAnswers, buildResponseAction nextNode, nextNode.isEnd⟩

/-! ## Tree validator (`tenantTreeNodesSchema` of `src/lib/tenantTree.ts`) -/

/-- One diagnostic of the validator: the two `superRefine` issues without
a path, and the two dangling-reference issues carrying the offending node
key (and option index / option id for the option form), mirroring the
issue `path`s `[key, 'next']` and `[key, 'options', index, 'next']`. -/
inductive TreeIssue where
  | emptyTree
  | missingStart
  | danglingNext (key : String) (next : String)
  | danglingOptionNext (key : String) (index : Nat) (optId : String) (next : String)
  deriving Repr, DecidableEq

/-- `treeOptionSchema`: `id`, `title`, `next` all `min(1)`. -/
def optionSchemaOk (o : TreeOption) : Bool :=
  !(o.id == "") && !(o.title == "") && !(o.next == "")

/-- The schema-shape checks on one node (`textNodeSchema`,
`listNodeSchema`, `buttonsNodeSchema`, `endNodeSchema`): `body` min(1),
`saveAs` min(1) when present, `next` min(1) on text nodes, and at least
one well-formed option on list/buttons nodes. -/
def nodeSchemaOk : Node → Bool
  | .text body sa nxt =>
      !(body == "") && (match sa with | none => true | some s => !(s == "")) && !(nxt == "")
  | .list body sa opts =>
      !(body == "") && (match sa with | none => true | some s => !(s == ""))
        && !opts.isEmpty && opts.all optionSchemaOk
  | .buttons body sa opts =>
      !(body == "") && (match sa with | none => true | some s => !(s == ""))
        && !opts.isEmpty && opts.all optionSchemaOk
  | .end_ body sa =>
      !(body == "") && (match sa with | none => true | some s => !(s == ""))

/-- The loop of the `superRefine` over one list/buttons node's options
(`for (const [index, option] of node.options.entries())`), carrying the
running index. -/
def optionIssues (nodes : NodeMap) (key : String) : Nat → List TreeOption → List TreeIssue
  | _, [] => []
  | i, o :: rest =>
      (if (lookupKey nodes o.next).isSome then []
       else [.danglingOptionNext key i o.id o.next])
        ++ optionIssues nodes key (i + 1) rest

/-- The `superRefine` issues for one entry of the nodes record. -/
def nodeIssues (nodes : NodeMap) (key : String) : Node → List TreeIssue
  | .text _ _ nxt =>
      if (lookupKey nodes nxt).isSome then [] else [.danglingNext key nxt]
  | .list _ _ opts => optionIssues nodes key 0 opts
  | .buttons _ _ opts => optionIssues nodes key 0 opts
  | .end_ _ _ => []

/-- All issues the `superRefine` of `tenantTreeNodesSchema` adds, in the
order it adds them: emptiness, missing `start`, then per entry (in
insertion order) the dangling `next` references. -/
def refIssues (nodes : NodeMap) : List TreeIssue :=
  (if nodes.isEmpty then [TreeIssue.emptyTree] else [])
    ++ (if (lookupKey nodes "start").isSome then [] else [TreeIssue.missingStart])
    ++ nodes.flatMap (fun p => nodeIssues nodes p.1 p.2)

/-- `tenantTreeNodesSchema` accepts the nodes record: every node parses
under the discriminated union of node schemas and the `superRefine`
reports no issue. -/
def validatorAccepts (nodes : NodeMap) : Bool :=
  nodes.all (fun p => nodeSchemaOk p.2) && (refIssues nodes).isEmpty

/-! ## Spec-side definitions

Definitions written from the specification's words, to be compared
against the code-derived definitions above. -/

/-- Spec §4.2 step 6 (as amended): the answer matches an option when the
option's `id` or `title`, case-folded, equals the answer after trimming
and case-folding. -/
def specOptionMatches (answer : String) (o : TreeOption) : Bool :=
  let norm := jsToLower (jsTrim answer)
  jsToLower o.id == norm || jsToLower o.title == norm

/-- The claim's matching rule read literally: `id`/`title` equals the
answer "after trimming and case-folding both sides". -/
def claimOptionMatches (answer : String) (o : TreeOption) : Bool :=
  let norm := jsToLower (jsTrim answer)
  jsToLower (jsTrim o.id) == norm || jsToLower (jsTrim o.title) == norm

/-- Spec §4.1 check 3/4: every reference leaving the node lands on a key
present in the mapping. -/
def nodeRefsClosed (nodes : NodeMap) : Node → Bool
  | .text _ _ nxt => (lookupKey nodes nxt).isSome
  | .list _ _ opts => opts.all (fun o => (lookupKey nodes o.next).isSome)
  | .buttons _ _ opts => opts.all (fun o => (lookupKey nodes o.next).isSome)
  | .end_ _ _ => true

/-- Spec §4.1 check 5 (the part the claim quotes): a list/buttons node
carries at least one option. -/
def nodeOptionsNonempty : Node → Bool
  | .list _ _ opts => !opts.isEmpty
  | .buttons _ _ opts => !opts.isEmpty
  | _ => true

/-- The acceptance condition claimed for the validator: non-empty
mapping, a `start` node, reference closure, and non-empty option sets. -/
def claimAcceptConds (nodes : NodeMap) : Bool :=
  !nodes.isEmpty && (lookupKey nodes "start").isSome
    && nodes.all (fun p => nodeRefsClosed nodes p.2)
    && nodes.all (fun p => nodeOptionsNonempty p.2)

/-- The string-minimality condition the amended claim adds: every string
field the schema constrains (`body`, a present `saveAs`, a text node's
`next`, and each option's `id`/`title`/`next`) is non-empty. -/
def nodeStringsOk : Node → Bool
  | .text body sa nxt =>
      !(body == "") && (match sa with | none => true | some s => !(s == "")) && !(nxt == "")
  | .list body sa opts =>
      !(body == "") && (match sa with | none => true | some s => !(s == ""))
        && opts.all optionSchemaOk
  | .buttons body sa opts =>
      !(body == "") && (match sa with | none => true | some s => !(s == ""))
        && opts.all optionSchemaOk
  | .end_ body sa =>
      !(body == "") && (match sa with | none => true | some s => !(s == ""))

/-! ## Shared lemmas -/

theorem resolveFallback_start {nodes : NodeMap} (h : (lookupKey nodes "start").isSome = true) :
    resolveFallback nodes = "start" := by
  simp [resolveFallback, h]

theorem resolveNodeKey_start {nodes : NodeMap} (h : (lookupKey nodes "start").isSome = true) :
    resolveNodeKey nodes (some "start") = "start" := by
  simp [resolveNodeKey, h]

theorem resolveNodeKey_present {nodes : NodeMap} {c : String}
    (hc : (c == "") = false) (h : (lookupKey nodes c).isSome = true) :
    resolveNodeKey nodes (some c) = c := by
  simp [resolveNodeKey, hc, h]

theorem fallbackKeyOf_start {nodes : NodeMap} (h : (lookupKey nodes "start").isSome = true) :
    fallbackKeyOf nodes = "start" :=
  resolveNodeKey_start h

theorem startNodeOf_start {nodes : NodeMap} {conv : ConversationState} {s : Node}
    (hs : lookupKey nodes "start" = some s) :
    startNodeOf nodes conv = some s := by
  have hss : (lookupKey nodes "start").isSome = true := by rw [hs]; rfl
  rw [startNodeOf, fallbackKeyOf_start hss, hs]

theorem currentNodeOf_of_lookup {nodes : NodeMap} {conv : ConversationState} {n : Node}
    (h : lookupKey nodes (currentKeyOf nodes conv) = some n) :
    currentNodeOf nodes conv = some n := by
  rw [currentNodeOf, h]

theorem specOptionMatches_mk (a oid otitle onext : String) :
    specOptionMatches a ⟨oid, otitle, onext⟩ =
      (jsToLower oid == jsToLower (jsTrim a) || jsToLower otitle == jsToLower (jsTrim a)) := rfl

theorem matchOption_eq_list (b : String) (sa : Option String) (opts : List TreeOption)
    (a : String) :
    matchOption (.list b sa opts) a = opts.find? (specOptionMatches a) := rfl

theorem matchOption_eq_buttons (b : String) (sa : Option String) (opts : List TreeOption)
    (a : String) :
    matchOption (.buttons b sa opts) a = opts.find? (specOptionMatches a) := rfl

theorem lookupKey_cons (p : String × α) (rest : List (String × α)) (k : String) :
    lookupKey (p :: rest) k = if p.1 == k then some p.2 else lookupKey rest k := by
  by_cases h : p.1 == k <;> simp [lookupKey, List.find?, h]

theorem lookupKey_setKey_self (m : List (String × α)) (k : String) (v : α) :
    lookupKey (setKey m k v) k = some v := by
  induction m with
  | nil => simp [setKey, lookupKey]
  | cons p rest ih =>
      rw [setKey]
      by_cases h : p.1 == k
      · rw [if_pos h, lookupKey_cons]
        simp
      · rw [if_neg h, lookupKey_cons, if_neg h]
        exact ih

theorem frame_of_map_eq {w : Option Node} {key : String} {ans : List (String × String)}
    {out : ProcessInboundOutput}
    (h : ((buildResponseAction? w).map
        (fun ra => (⟨key, ans, ra, false⟩ : ProcessInboundOutput))) = some out) :
    out.updatedAnswers = ans ∧ out.shouldHandoff = false := by
  cases w with
  | none => simp [buildResponseAction?] at h
  | some n =>
      simp only [buildResponseAction?, Option.map_some] at h
      cases h
      exact ⟨rfl, rfl⟩

theorem no_answer_frame (conv : ConversationState) (msg : InboundMessage)
    (tree? : Option TreeDefinition) (out : ProcessInboundOutput)
    (h : strTruthy (parseInboundAnswer msg) = false)
    (hout : processInbound conv msg tree? = some out) :
    out.updatedAnswers = conv.answers ∧ out.shouldHandoff = false := by
  simp only [processInbound, h, Bool.not_false, if_true] at hout
  split at hout
  · exact frame_of_map_eq hout
  · split at hout
    · exact frame_of_map_eq hout
    · exact frame_of_map_eq hout

theorem reprompt_with_record (conv : ConversationState) (msg : InboundMessage)
    (nodes : NodeMap) (k x a : String) (n : Node)
    (hck : currentKeyOf nodes conv = k)
    (hcn : currentNodeOf nodes conv = some n)
    (hn : lookupKey nodes k = some n)
    (hend : n.isEnd = false)
    (hsa : n.saveAs = some x) (hxne : (x == "") = false)
    (ha : parseInboundAnswer msg = some a) (hane : (a == "") = false)
    (hnk : nextKeyFor n a = none) :
    processInbound conv msg (some ⟨nodes⟩) =
      some ⟨k, setKey conv.answers x a, buildResponseAction n, false⟩ := by
  by_cases hkf : k = fallbackKeyOf nodes
  · have hsn : startNodeOf nodes conv = some n := by rw [startNodeOf, ← hkf, hn]
    simp only [processInbound, nodesOf, hcn, hck, hsn]
    simp [ha, strTruthy, hane, hend, recordAnswer, hsa, hxne, hnk, hkf, buildResponseAction?]
  · simp only [processInbound, nodesOf, hcn, hck]
    simp [ha, strTruthy, hane, hend, recordAnswer, hsa, hxne, hnk, hkf, buildResponseAction?]

theorem lookupKey_resolveNodeKey_isSome {nodes : NodeMap}
    (hs : (lookupKey nodes "start").isSome = true) (cand : Option String) :
    (lookupKey nodes (resolveNodeKey nodes cand)).isSome = true := by
  cases cand with
  | none =>
      rw [resolveNodeKey, resolveFallback_start hs]
      exact hs
  | some c =>
      rw [resolveNodeKey]
      by_cases h : (!(c == "") && (lookupKey nodes c).isSome) = true
      · rw [if_pos h]
        simp at h
        exact h.2
      · rw [if_neg h, resolveFallback_start hs]
        exact hs

theorem processInbound_isSome (conv : ConversationState) (msg : InboundMessage)
    (nodes : NodeMap) (hs : (lookupKey nodes "start").isSome = true) :
    (processInbound conv msg (some ⟨nodes⟩)).isSome = true := by
  obtain ⟨s, hs'⟩ := Option.isSome_iff_exists.mp hs
  have h2 : (lookupKey nodes (currentKeyOf nodes conv)).isSome = true :=
    lookupKey_resolveNodeKey_isSome hs (some (conv.currentNodeKey.getD (fallbackKeyOf nodes)))
  obtain ⟨cn, hcn'⟩ := Option.isSome_iff_exists.mp h2
  have hcn : currentNodeOf nodes conv = some cn := by rw [currentNodeOf, hcn']
  have hst : startNodeOf nodes conv = some s := startNodeOf_start hs'
  simp only [processInbound, nodesOf, hcn, hst]
  split
  · simp [buildResponseAction?]
  · split
    · split <;> simp [buildResponseAction?]
    · split
      · split <;> simp [buildResponseAction?]
      · split
        · next heq =>
            split at heq
            · simp at heq
            · simp at heq
        · simp

theorem start_of_validatorAccepts {nodes : NodeMap} (hv : validatorAccepts nodes = true) :
    (lookupKey nodes "start").isSome = true := by
  rw [validatorAccepts] at hv
  simp only [Bool.and_eq_true] at hv
  have h2 := hv.2
  rw [refIssues] at h2
  by_contra h
  simp only [Bool.not_eq_true] at h
  simp [h, List.isEmpty_iff] at h2

/-! ## Claims -/

/-- C1: for every conversation state whose resolved current node is of
type `end` and every inbound message, `processInbound` returns
`nextNodeKey = "start"`, `shouldHandoff = false`, the answers unchanged,
and the response built from the `start` node.  (Stated for trees that
contain a `start` node, as every validator-accepted tree does.) -/
theorem terminal_restart (conv : ConversationState) (msg : InboundMessage)
    (nodes : NodeMap) (s n : Node)
    (hs : lookupKey nodes "start" = some s)
    (hn : lookupKey nodes (resolveNodeKey nodes (some (conv.currentNodeKey.getD "start"))) = some n)
    (he : n.isEnd = true) :
    processInbound conv msg (some ⟨nodes⟩) =
      some ⟨"start", conv.answers, buildResponseAction s, false⟩ := by
  have hss : (lookupKey nodes "start").isSome = true := by rw [hs]; rfl
  have hfb : fallbackKeyOf nodes = "start" := fallbackKeyOf_start hss
  have hck : currentNodeOf nodes conv = some n := by
    rw [currentNodeOf, currentKeyOf, hfb, hn]
  have hst : startNodeOf nodes conv = some s := startNodeOf_start hs
  simp only [processInbound, nodesOf, hck, hfb, hst]
  simp [he, buildResponseAction?]

/-- Witness for C1: a conversation parked on the default tree's `done`
node restarts at `start` whatever the message says. -/
theorem terminal_restart_witness :
    processInbound ⟨some "done", [("budget", "$$")]⟩ (.text "hola") (some TREE) =
      some ⟨"start", [("budget", "$$")],
        .list "¿Qué te interesa?" [("rent", "Renta"), ("dj", "DJ"), ("quote", "Cotización")],
        false⟩ :=
  terminal_restart ⟨some "done", [("budget", "$$")]⟩ (.text "hola") TREE.nodes
    (.list "¿Qué te interesa?" (some "service")
      [⟨"rent", "Renta", "date"⟩, ⟨"dj", "DJ", "date"⟩, ⟨"quote", "Cotización", "date"⟩])
    (.end_ "Gracias. Ya tengo tus datos; en breve te contactamos para darte seguimiento." none)
    (by decide) (by decide) (by decide)

/-- C5 (amended): `matchOption` selects the first option whose `id` or
`title`, case-folded, equals the answer trimmed and case-folded — the
answer is trimmed but the option fields are compared as stored; the
option `{id := "rent", title := "Renta"}` matches `"RENT"`, `" rent "`
and `"renta"` identically; with no matching option the result stays
unresolved (`none`). -/
theorem option_matching :
    (∀ (b : String) (sa : Option String) (opts : List TreeOption) (a : String),
        matchOption (.list b sa opts) a = opts.find? (specOptionMatches a))
    ∧ (∀ (b : String) (sa : Option String) (opts : List TreeOption) (a : String),
        matchOption (.buttons b sa opts) a = opts.find? (specOptionMatches a))
    ∧ (∀ (nxt b : String) (sa : Option String) (rest : List TreeOption),
        matchOption (.list b sa (⟨"rent", "Renta", nxt⟩ :: rest)) "RENT" =
            some ⟨"rent", "Renta", nxt⟩
          ∧ matchOption (.list b sa (⟨"rent", "Renta", nxt⟩ :: rest)) " rent " =
            some ⟨"rent", "Renta", nxt⟩
          ∧ matchOption (.list b sa (⟨"rent", "Renta", nxt⟩ :: rest)) "renta" =
            some ⟨"rent", "Renta", nxt⟩)
    ∧ (∀ (b : String) (sa : Option String) (opts : List TreeOption) (a : String),
        (∀ o ∈ opts, specOptionMatches a o = false) →
          matchOption (.list b sa opts) a = none) := by
  refine ⟨fun _ _ _ _ => rfl, fun _ _ _ _ => rfl, ?_, ?_⟩
  · intro nxt b sa rest
    refine ⟨?_, ?_, ?_⟩ <;>
      exact (matchOption_eq_list ..).trans
        (List.find?_cons_of_pos _ (by rw [specOptionMatches_mk]; decide))
  · intro b sa opts a h
    rw [matchOption]
    exact List.find?_eq_none.mpr (fun o ho => by
      simp only [Bool.not_eq_true]
      exact h o ho)

/-- Witness for C5: the concrete triple-match on a two-option list node,
and `none` on an answer matching no option. -/
theorem option_matching_witness :
    matchOption (.list "b" none [⟨"rent", "Renta", "d"⟩, ⟨"dj", "DJ", "d"⟩]) " rent " =
        some ⟨"rent", "Renta", "d"⟩
      ∧ matchOption (.list "b" none [⟨"dj", "DJ", "d"⟩]) "rent" = none :=
  ⟨(option_matching.2.2.1 "d" "b" none [⟨"dj", "DJ", "d"⟩]).2.1,
    option_matching.2.2.2 "b" none [⟨"dj", "DJ", "d"⟩] "rent" (by decide)⟩

/-- Counterexample for C5 as stated: with "trimming and case-folding
both sides" the option id `" rent "` would match the answer `"rent"`,
but `matchOption` compares the option id untrimmed and does not. -/
theorem option_matching_cex :
    claimOptionMatches "rent" ⟨" rent ", "X", "n"⟩ = true
      ∧ matchOption (.list "b" none [⟨" rent ", "X", "n"⟩]) "rent" = none := by
  constructor <;> decide

/-- C8: answer extraction — a text message yields its body trimmed; an
interactive message yields the button-reply id when present (also when a
list-reply id is present too), else the list-reply id when present, else
nothing; any other message shape yields nothing. -/
theorem answer_extraction :
    (∀ body : String, parseInboundAnswer (.text body) = some (jsTrim body))
    ∧ (∀ (bid : String) (lr : Option String),
        parseInboundAnswer (.interactive (some bid) lr) = some bid)
    ∧ (∀ lid : String, parseInboundAnswer (.interactive none (some lid)) = some lid)
    ∧ parseInboundAnswer (.interactive none none) = none
    ∧ (∀ t : String, parseInboundAnswer (.other t) = none) :=
  ⟨fun _ => rfl, fun _ _ => rfl, fun _ => rfl, rfl, fun _ => rfl⟩

/-- C2: for every conversation state (including one whose
`currentNodeKey` names a node absent from the tree), every inbound
message, and every validator-accepted tree, `processInbound` returns a
well-formed output — the model returns `none` exactly where the
TypeScript would throw, so `isSome` is the never-throws property. -/
theorem engine_never_throws (conv : ConversationState) (msg : InboundMessage)
    (nodes : NodeMap) (hv : validatorAccepts nodes = true) :
    (processInbound conv msg (some ⟨nodes⟩)).isSome = true :=
  processInbound_isSome conv msg nodes (start_of_validatorAccepts hv)

/-- Witness for C2: a state pointing at a node that does not exist in
the default tree still yields an output. -/
theorem engine_never_throws_witness :
    (processInbound ⟨some "removed-node", [("a", "b")]⟩ (.other "reaction")
        (some ⟨TREE.nodes⟩)).isSome = true :=
  engine_never_throws ⟨some "removed-node", [("a", "b")]⟩ (.other "reaction") TREE.nodes
    (by decide)

/-- Counterexample for C3 as stated: the state `{currentNodeKey "done"}`
(an `end` node of the default tree) with a no-answer message returns
`nextNodeKey = "start"`, not `S.currentNodeKey = "done"` — the terminal
restart wins over the idempotent reprompt. -/
theorem idempotent_reprompt_cex :
    ((⟨some "done", []⟩ : ConversationState).currentNodeKey = some "done")
      ∧ parseInboundAnswer (.other "unknown") = none
      ∧ (processInbound ⟨some "done", []⟩ (.other "unknown") none).map
          ProcessInboundOutput.nextNodeKey = some "start" := by
  refine ⟨rfl, rfl, ?_⟩
  decide

/-- C3 (amended): for every state whose `currentNodeKey`, when set, is
non-empty and names a non-`end` node present in the tree (and for every
unset `currentNodeKey`), a message from which no answer is extracted
leaves the conversation in place: `nextNodeKey = currentNodeKey ?? start`,
the answers unchanged, no handoff.  (Stated for trees containing a
`start` node.) -/
theorem idempotent_reprompt (conv : ConversationState) (msg : InboundMessage)
    (nodes : NodeMap)
    (hs : (lookupKey nodes "start").isSome = true)
    (hcur : conv.currentNodeKey = none ∨
      ∃ k n, conv.currentNodeKey = some k ∧ (k == "") = false
        ∧ lookupKey nodes k = some n ∧ n.isEnd = false)
    (hmsg : parseInboundAnswer msg = none) :
    ∃ out, processInbound conv msg (some ⟨nodes⟩) = some out
      ∧ out.nextNodeKey = conv.currentNodeKey.getD "start"
      ∧ out.updatedAnswers = conv.answers
      ∧ out.shouldHandoff = false := by
  obtain ⟨s, hs'⟩ := Option.isSome_iff_exists.mp hs
  have hfb : fallbackKeyOf nodes = "start" := fallbackKeyOf_start hs
  have hst : startNodeOf nodes conv = some s := startNodeOf_start hs'
  rcases hcur with hnone | ⟨k, n, hk, hkne, hkn, hne⟩
  · have hck : currentKeyOf nodes conv = "start" := by
      rw [currentKeyOf, hnone, hfb]
      simpa using resolveNodeKey_start hs
    have hcn : currentNodeOf nodes conv = some s := by
      rw [currentNodeOf, hck, hs']
    by_cases hse : s.isEnd = true
    · refine ⟨⟨"start", conv.answers, buildResponseAction s, false⟩, ?_, ?_, rfl, rfl⟩
      · simp only [processInbound, nodesOf, hcn, hfb, hst, hck]
        simp [hse, buildResponseAction?]
      · simp [hnone]
    · refine ⟨⟨"start", conv.answers, buildResponseAction s, false⟩, ?_, ?_, rfl, rfl⟩
      · simp only [processInbound, nodesOf, hcn, hfb, hst, hck]
        simp [hse, hmsg, strTruthy, buildResponseAction?]
      · simp [hnone]
  · have hck : currentKeyOf nodes conv = k := by
      have h1 : conv.currentNodeKey.getD (fallbackKeyOf nodes) = k := by simp [hk]
      rw [currentKeyOf, h1]
      exact resolveNodeKey_present hkne (by rw [hkn]; rfl)
    have hcn : currentNodeOf nodes conv = some n := by
      rw [currentNodeOf, hck, hkn]
    by_cases hkf : k = "start"
    · refine ⟨⟨"start", conv.answers, buildResponseAction s, false⟩, ?_, ?_, rfl, rfl⟩
      · simp only [processInbound, nodesOf, hcn, hfb, hst, hck]
        simp [hne, hmsg, strTruthy, hkf, buildResponseAction?]
      · simp [hk, hkf]
    · refine ⟨⟨k, conv.answers, buildResponseAction n, false⟩, ?_, ?_, rfl, rfl⟩
      · simp only [processInbound, nodesOf, hcn, hfb, hst, hck]
        simp [hne, hmsg, strTruthy, hkf, buildResponseAction?]
      · simp [hk]

/-- Witness for C3: an unrecognized message at the default tree's `date`
node reprompts in place with the answers untouched. -/
theorem idempotent_reprompt_witness :
    ∃ out, processInbound ⟨some "date", [("service", "rent")]⟩ (.other "audio")
        (some ⟨TREE.nodes⟩) = some out
      ∧ out.nextNodeKey =
          (⟨some "date", [("service", "rent")]⟩ : ConversationState).currentNodeKey.getD "start"
      ∧ out.updatedAnswers = [("service", "rent")]
      ∧ out.shouldHandoff = false :=
  idempotent_reprompt ⟨some "date", [("service", "rent")]⟩ (.other "audio") TREE.nodes
    (by decide)
    (Or.inr ⟨"date", .text "¿Para qué fecha lo necesitas?" (some "date") "city",
      rfl, by decide, by decide, by decide⟩)
    rfl

/-- Counterexample for C6 as stated: a whitespace-only text message at
the default tree's `city` node (which declares `saveAs = "city"`) yields
the extracted answer `""` which matches no option, yet nothing at all is
recorded into `updatedAnswers` — the falsy answer takes the no-answer
path before `saveAs` runs. -/
theorem saveAs_persistence_cex :
    parseInboundAnswer (.text "   ") = some ""
      ∧ (lookupKey TREE.nodes "city").map Node.saveAs = some (some "city")
      ∧ matchOption (.buttons "¿En qué ciudad será el evento?" (some "city")
          [⟨"saltillo", "Saltillo", "budget"⟩, ⟨"ramos", "Ramos", "budget"⟩,
            ⟨"arteaga", "Arteaga", "budget"⟩]) "" = none
      ∧ (processInbound ⟨some "city", []⟩ (.text "   ") (some ⟨TREE.nodes⟩)).map
          ProcessInboundOutput.updatedAnswers = some [] := by
  refine ⟨by decide, by decide, by decide, by decide⟩

/-- C6 (amended): at a list/buttons node declaring `saveAs = x`, a
non-empty extracted answer that matches no option is still recorded
under `x` while `nextNodeKey` stays at the current node key and no
handoff is signalled. -/
theorem saveAs_persistence (conv : ConversationState) (msg : InboundMessage)
    (nodes : NodeMap) (k b x a : String) (opts : List TreeOption)
    (hk : conv.currentNodeKey = some k) (hkne : (k == "") = false)
    (hn : lookupKey nodes k = some (.list b (some x) opts)
        ∨ lookupKey nodes k = some (.buttons b (some x) opts))
    (hxne : (x == "") = false)
    (ha : parseInboundAnswer msg = some a) (hane : (a == "") = false)
    (hmatch : opts.find? (specOptionMatches a) = none) :
    ∃ out, processInbound conv msg (some ⟨nodes⟩) = some out
      ∧ out.nextNodeKey = k
      ∧ out.updatedAnswers = setKey conv.answers x a
      ∧ lookupKey out.updatedAnswers x = some a
      ∧ out.shouldHandoff = false := by
  have hck : currentKeyOf nodes conv = k := by
    have h1 : conv.currentNodeKey.getD (fallbackKeyOf nodes) = k := by simp [hk]
    rw [currentKeyOf, h1]
    rcases hn with hn | hn <;> exact resolveNodeKey_present hkne (by rw [hn]; rfl)
  rcases hn with hn | hn
  · have hcn : currentNodeOf nodes conv = some (.list b (some x) opts) := by
      rw [currentNodeOf, hck, hn]
    have hnk : nextKeyFor (.list b (some x) opts) a = none := by
      rw [nextKeyFor, matchOption_eq_list, hmatch]; rfl
    exact ⟨_, reprompt_with_record conv msg nodes k x a _ hck hcn hn rfl rfl hxne ha hane hnk,
      rfl, rfl, lookupKey_setKey_self conv.answers x a, rfl⟩
  · have hcn : currentNodeOf nodes conv = some (.buttons b (some x) opts) := by
      rw [currentNodeOf, hck, hn]
    have hnk : nextKeyFor (.buttons b (some x) opts) a = none := by
      rw [nextKeyFor, matchOption_eq_buttons, hmatch]; rfl
    exact ⟨_, reprompt_with_record conv msg nodes k x a _ hck hcn hn rfl rfl hxne ha hane hnk,
      rfl, rfl, lookupKey_setKey_self conv.answers x a, rfl⟩

/-- Witness for C6: the unmatched city `"Torreón"` is recorded under
`"city"` while the conversation stays at the `city` node. -/
theorem saveAs_persistence_witness :
    ∃ out, processInbound ⟨some "city", []⟩ (.text "Torreón") (some ⟨TREE.nodes⟩) = some out
      ∧ out.nextNodeKey = "city"
      ∧ out.updatedAnswers = setKey [] "city" "Torreón"
      ∧ lookupKey out.updatedAnswers "city" = some "Torreón"
      ∧ out.shouldHandoff = false :=
  saveAs_persistence ⟨some "city", []⟩ (.text "Torreón") TREE.nodes "city"
    "¿En qué ciudad será el evento?" "city" "Torreón"
    [⟨"saltillo", "Saltillo", "budget"⟩, ⟨"ramos", "Ramos", "budget"⟩,
      ⟨"arteaga", "Arteaga", "budget"⟩]
    rfl (by decide) (Or.inr (by decide)) (by decide) (by decide) (by decide) (by decide)

/-- C7: whenever the engine advances (a truthy answer was extracted and
a truthy next-node key determined), the response action is built from
the resolved next node (`nodes[nextNodeKey] ?? startNode`) and
`shouldHandoff` is `true` iff that resolved node's type is `end`. -/
theorem advance_response (conv : ConversationState) (msg : InboundMessage)
    (nodes : NodeMap) (cn m : Node) (a k : String)
    (hcn : currentNodeOf nodes conv = some cn) (hend : cn.isEnd = false)
    (ha : parseInboundAnswer msg = some a) (hane : (a == "") = false)
    (hnext : nextKeyFor cn a = some k) (hkne : (k == "") = false)
    (hm : (match lookupKey nodes k with
      | some n => some n
      | none => startNodeOf nodes conv) = some m) :
    processInbound conv msg (some ⟨nodes⟩) =
      some ⟨k, recordAnswer (some cn) conv.answers a, buildResponseAction m, m.isEnd⟩ := by
  simp only [processInbound, nodesOf, hcn]
  simp [ha, strTruthy, hane, hend, hnext, hkne, hm]

/-- Witness for C7: selecting `rent` at the default tree's `start`
advances to `date` with a text response and no handoff. -/
theorem advance_response_witness :
    processInbound ⟨none, []⟩ (.interactive none (some "rent")) (some ⟨TREE.nodes⟩) =
      some ⟨"date",
        recordAnswer (some (.list "¿Qué te interesa?" (some "service")
          [⟨"rent", "Renta", "date"⟩, ⟨"dj", "DJ", "date"⟩, ⟨"quote", "Cotización", "date"⟩]))
          [] "rent",
        buildResponseAction (.text "¿Para qué fecha lo necesitas?" (some "date") "city"),
        Node.isEnd (.text "¿Para qué fecha lo necesitas?" (some "date") "city")⟩ :=
  advance_response ⟨none, []⟩ (.interactive none (some "rent")) TREE.nodes
    (.list "¿Qué te interesa?" (some "service")
      [⟨"rent", "Renta", "date"⟩, ⟨"dj", "DJ", "date"⟩, ⟨"quote", "Cotización", "date"⟩])
    (.text "¿Para qué fecha lo necesitas?" (some "date") "city") "rent" "date"
    (by decide) (by decide) (by decide) (by decide) (by decide) (by decide) (by decide)

/-- C9: when the determined next-node key is absent from the tree,
`processInbound` still returns that absent key as `nextNodeKey`, while
the response action and `shouldHandoff` are computed from the `start`
node used as fallback. -/
theorem dangling_next_returned (conv : ConversationState) (msg : InboundMessage)
    (nodes : NodeMap) (cn s : Node) (a k : String)
    (hs : lookupKey nodes "start" = some s)
    (hcn : currentNodeOf nodes conv = some cn) (hend : cn.isEnd = false)
    (ha : parseInboundAnswer msg = some a) (hane : (a == "") = false)
    (hnext : nextKeyFor cn a = some k) (hkne : (k == "") = false)
    (hmissing : lookupKey nodes k = none) :
    processInbound conv msg (some ⟨nodes⟩) =
      some ⟨k, recordAnswer (some cn) conv.answers a, buildResponseAction s, s.isEnd⟩ := by
  have hst : startNodeOf nodes conv = some s := startNodeOf_start hs
  simp only [processInbound, nodesOf, hcn]
  simp [ha, strTruthy, hane, hend, hnext, hkne, hmissing, hst]

/-- Witness for C9: a `start` text node pointing at the nonexistent key
`"ghost"` — the output carries `nextNodeKey = "ghost"` with the start
node's response. -/
theorem dangling_next_returned_witness :
    processInbound ⟨none, []⟩ (.text "hola") (some ⟨[("start", .text "hi" none "ghost")]⟩) =
      some ⟨"ghost",
        recordAnswer (some (.text "hi" none "ghost")) [] "hola",
        buildResponseAction (.text "hi" none "ghost"),
        Node.isEnd (.text "hi" none "ghost")⟩ :=
  dangling_next_returned ⟨none, []⟩ (.text "hola") [("start", .text "hi" none "ghost")]
    (.text "hi" none "ghost") (.text "hi" none "ghost") "hola" "ghost"
    (by decide) (by decide) (by decide) (by decide) (by decide) (by decide) (by decide)
    (by decide)

/-- C10: an inbound text message whose body trims to the empty string is
treated exactly like a message from which no answer is extracted — the
whole engine output coincides with that for an unrecognized-type
message, and in particular nothing is recorded and no handoff occurs. -/
theorem blank_text_no_answer :
    (∀ (conv : ConversationState) (tree? : Option TreeDefinition) (body t : String),
        jsTrim body = "" →
          processInbound conv (.text body) tree? = processInbound conv (.other t) tree?)
    ∧ (∀ (conv : ConversationState) (tree? : Option TreeDefinition) (body : String)
        (out : ProcessInboundOutput), jsTrim body = "" →
          processInbound conv (.text body) tree? = some out →
          out.updatedAnswers = conv.answers ∧ out.shouldHandoff = false) := by
  constructor
  · intro conv tree? body t h
    simp only [processInbound, parseInboundAnswer, h]
    simp [strTruthy]
  · intro conv tree? body out h hout
    exact no_answer_frame conv (.text body) tree? out
      (by simp [parseInboundAnswer, h, strTruthy]) hout

/-- Witness for C10: a single-space text at the `city` node behaves like
a sticker message. -/
theorem blank_text_no_answer_witness :
    processInbound ⟨some "city", []⟩ (.text " ") (some ⟨TREE.nodes⟩) =
        processInbound ⟨some "city", []⟩ (.other "sticker") (some ⟨TREE.nodes⟩)
      ∧ jsTrim " " = "" :=
  ⟨blank_text_no_answer.1 ⟨some "city", []⟩ (some ⟨TREE.nodes⟩) " " "sticker" (by decide),
    by decide⟩

/-! ## Validator lemmas and claim C4 -/

theorem optionIssues_eq_nil_iff (nodes : NodeMap) (key : String) (i : Nat)
    (opts : List TreeOption) :
    optionIssues nodes key i opts = [] ↔
      ∀ o ∈ opts, (lookupKey nodes o.next).isSome = true := by
  induction opts generalizing i with
  | nil => simp [optionIssues]
  | cons o rest ih =>
      rw [optionIssues]
      by_cases h : (lookupKey nodes o.next).isSome = true
      · simp [h, ih]
      · simp [h]

theorem nodeIssues_eq_nil_iff (nodes : NodeMap) (key : String) (n : Node) :
    nodeIssues nodes key n = [] ↔ nodeRefsClosed nodes n = true := by
  cases n with
  | text b sa nxt =>
      rw [nodeIssues, nodeRefsClosed]
      by_cases h : (lookupKey nodes nxt).isSome = true <;> simp [h]
  | list b sa opts =>
      rw [nodeIssues, nodeRefsClosed]
      rw [optionIssues_eq_nil_iff, List.all_eq_true]
  | buttons b sa opts =>
      rw [nodeIssues, nodeRefsClosed]
      rw [optionIssues_eq_nil_iff, List.all_eq_true]
  | end_ b sa => simp [nodeIssues, nodeRefsClosed]

theorem refIssues_eq_nil_iff (nodes : NodeMap) :
    refIssues nodes = [] ↔
      (nodes.isEmpty = false ∧ (lookupKey nodes "start").isSome = true
        ∧ ∀ p ∈ nodes, nodeIssues nodes p.1 p.2 = []) := by
  rw [refIssues]
  rw [List.append_assoc, List.append_eq_nil, List.append_eq_nil, List.flatMap_eq_nil_iff]
  constructor
  · rintro ⟨h1, h2, h3⟩
    refine ⟨?_, ?_, fun p hp => h3 p hp⟩
    · by_contra h
      simp only [Bool.not_eq_false] at h
      simp [h] at h1
    · by_contra h
      simp only [Bool.not_eq_true] at h
      simp [h] at h2
  · rintro ⟨h1, h2, h3⟩
    exact ⟨by simp [h1], by simp [h2], h3⟩

theorem nodeSchemaOk_iff (n : Node) :
    nodeSchemaOk n = true ↔ (nodeOptionsNonempty n = true ∧ nodeStringsOk n = true) := by
  cases n <;>
    simp [nodeSchemaOk, nodeOptionsNonempty, nodeStringsOk, Bool.and_eq_true] <;> tauto

theorem validator_iff (nodes : NodeMap) :
    validatorAccepts nodes = true ↔
      (claimAcceptConds nodes = true ∧ ∀ p ∈ nodes, nodeStringsOk p.2 = true) := by
  rw [validatorAccepts, claimAcceptConds]
  simp only [Bool.and_eq_true, List.all_eq_true, List.isEmpty_iff]
  rw [← List.isEmpty_iff]
  constructor
  · rintro ⟨hall, hempty⟩
    rw [List.isEmpty_iff, refIssues_eq_nil_iff] at hempty
    obtain ⟨h1, h2, h3⟩ := hempty
    refine ⟨⟨⟨⟨?_, h2⟩, ?_⟩, ?_⟩, ?_⟩
    · simp [Bool.not_eq_true', h1]
    · intro p hp
      rw [← nodeIssues_eq_nil_iff nodes p.1]
      exact h3 p hp
    · intro p hp
      exact ((nodeSchemaOk_iff p.2).mp (hall p hp)).1
    · intro p hp
      exact ((nodeSchemaOk_iff p.2).mp (hall p hp)).2
  · rintro ⟨⟨⟨⟨h1, h2⟩, h3⟩, h4⟩, h5⟩
    refine ⟨fun p hp => (nodeSchemaOk_iff p.2).mpr ⟨h4 p hp, h5 p hp⟩, ?_⟩
    rw [List.isEmpty_iff, refIssues_eq_nil_iff]
    refine ⟨by simp [Bool.not_eq_true'] at h1 ⊢; exact h1, h2, ?_⟩
    intro p hp
    rw [nodeIssues_eq_nil_iff]
    exact h3 p hp

theorem lookupKey_replace_isSome (pre post : List (String × α)) (key c : String) (v v' : α) :
    (lookupKey (pre ++ (key, v') :: post) c).isSome
      = (lookupKey (pre ++ (key, v) :: post) c).isSome := by
  induction pre with
  | nil => by_cases h : key == c <;> simp [lookupKey_cons, h]
  | cons p rest ih =>
      by_cases h : p.1 == c <;> simp [List.cons_append, lookupKey_cons, h, ih]

theorem optionIssues_congr {nodes nodes' : NodeMap}
    (hsame : ∀ c, (lookupKey nodes' c).isSome = (lookupKey nodes c).isSome)
    (key : String) (i : Nat) (opts : List TreeOption) :
    optionIssues nodes' key i opts = optionIssues nodes key i opts := by
  induction opts generalizing i with
  | nil => rfl
  | cons o rest ih => rw [optionIssues, optionIssues, hsame, ih]

theorem nodeIssues_congr {nodes nodes' : NodeMap}
    (hsame : ∀ c, (lookupKey nodes' c).isSome = (lookupKey nodes c).isSome)
    (key : String) (n : Node) :
    nodeIssues nodes' key n = nodeIssues nodes key n := by
  cases n with
  | text b sa nxt => rw [nodeIssues, nodeIssues, hsame]
  | list b sa opts => exact optionIssues_congr hsame key 0 opts
  | buttons b sa opts => exact optionIssues_congr hsame key 0 opts
  | end_ b sa => rfl

theorem optionIssues_append (nodes : NodeMap) (key : String) (i : Nat)
    (l1 l2 : List TreeOption) :
    optionIssues nodes key i (l1 ++ l2)
      = optionIssues nodes key i l1 ++ optionIssues nodes key (i + l1.length) l2 := by
  induction l1 generalizing i with
  | nil => simp [optionIssues]
  | cons o rest ih =>
      rw [List.cons_append, optionIssues, optionIssues, ih, List.append_assoc,
        List.length_cons]
      have h : i + 1 + rest.length = i + (rest.length + 1) := by omega
      rw [h]

theorem optionIssues_single_dangling (nodes : NodeMap) (key : String)
    (opre opost : List TreeOption) (o' : TreeOption)
    (hpre : ∀ o ∈ opre, (lookupKey nodes o.next).isSome = true)
    (hpost : ∀ o ∈ opost, (lookupKey nodes o.next).isSome = true)
    (hmiss : (lookupKey nodes o'.next).isSome = false) :
    optionIssues nodes key 0 (opre ++ o' :: opost)
      = [.danglingOptionNext key opre.length o'.id o'.next] := by
  rw [optionIssues_append, (optionIssues_eq_nil_iff nodes key 0 opre).mpr hpre,
    optionIssues, (optionIssues_eq_nil_iff nodes key (0 + opre.length + 1) opost).mpr hpost]
  simp [hmiss]

theorem refIssues_replace (pre post : NodeMap) (key : String) (n n' : Node)
    (hacc : refIssues (pre ++ (key, n) :: post) = []) :
    refIssues (pre ++ (key, n') :: post)
      = nodeIssues (pre ++ (key, n') :: post) key n' := by
  have hsame : ∀ c, (lookupKey (pre ++ (key, n') :: post) c).isSome
      = (lookupKey (pre ++ (key, n) :: post) c).isSome :=
    fun c => lookupKey_replace_isSome pre post key c n n'
  obtain ⟨hne, hstart, hclosed⟩ := (refIssues_eq_nil_iff _).mp hacc
  rw [refIssues]
  have h1 : (pre ++ (key, n') :: post).isEmpty = false := by
    simp [List.isEmpty_iff]
  have h2 : (lookupKey (pre ++ (key, n') :: post) "start").isSome = true :=
    (hsame "start").trans hstart
  have hpre : (pre.flatMap fun p => nodeIssues (pre ++ (key, n') :: post) p.1 p.2) = [] := by
    rw [List.flatMap_eq_nil_iff]
    intro p hp
    rw [nodeIssues_congr hsame]
    exact hclosed p (List.mem_append_left _ hp)
  have hpost : (post.flatMap fun p => nodeIssues (pre ++ (key, n') :: post) p.1 p.2) = [] := by
    rw [List.flatMap_eq_nil_iff]
    intro p hp
    rw [nodeIssues_congr hsame]
    exact hclosed p (List.mem_append_right _ (List.mem_cons_of_mem _ hp))
  rw [List.flatMap_append, List.flatMap_cons, hpre, hpost]
  simp [h1, h2]

theorem all_schema_replace (pre post : NodeMap) (key : String) (n n' : Node)
    (hall : (pre ++ (key, n) :: post).all (fun p => nodeSchemaOk p.2) = true)
    (hn' : nodeSchemaOk n' = true) :
    (pre ++ (key, n') :: post).all (fun p => nodeSchemaOk p.2) = true := by
  rw [List.all_eq_true] at hall ⊢
  intro p hp
  rcases List.mem_append.mp hp with h | h
  · exact hall p (List.mem_append_left _ h)
  · rcases List.mem_cons.mp h with h | h
    · rw [h]
      exact hn'
    · exact hall p (List.mem_append_right _ (List.mem_cons_of_mem _ h))

theorem validatorAccepts_parts {nodes : NodeMap} (h : validatorAccepts nodes = true) :
    nodes.all (fun p => nodeSchemaOk p.2) = true ∧ refIssues nodes = [] := by
  rw [validatorAccepts, Bool.and_eq_true, List.isEmpty_iff] at h
  exact h

theorem text_mutation_detected (pre post : NodeMap) (key b nxt k : String) (sa : Option String)
    (hacc : validatorAccepts (pre ++ (key, .text b sa nxt) :: post) = true)
    (hkne : (k == "") = false)
    (hmiss : (lookupKey (pre ++ (key, .text b sa nxt) :: post) k).isSome = false) :
    refIssues (pre ++ (key, .text b sa k) :: post) = [.danglingNext key k]
      ∧ (pre ++ (key, .text b sa k) :: post).all (fun p => nodeSchemaOk p.2) = true
      ∧ validatorAccepts (pre ++ (key, .text b sa k) :: post) = false := by
  obtain ⟨hall, hri⟩ := validatorAccepts_parts hacc
  have hmiss' : (lookupKey (pre ++ (key, Node.text b sa k) :: post) k).isSome = false :=
    (lookupKey_replace_isSome pre post key k (.text b sa nxt) (.text b sa k)).trans hmiss
  have hri' : refIssues (pre ++ (key, Node.text b sa k) :: post) = [.danglingNext key k] := by
    rw [refIssues_replace pre post key (.text b sa nxt) (.text b sa k) hri, nodeIssues, hmiss']
    simp
  have hsch : nodeSchemaOk (.text b sa k) = true := by
    have hmem : ((key, Node.text b sa nxt) ∈ pre ++ (key, Node.text b sa nxt) :: post) :=
      List.mem_append_right _ (List.mem_cons_self _ _)
    have h0 := (List.all_eq_true.mp hall) _ hmem
    simp only [nodeSchemaOk, Bool.and_eq_true] at h0 ⊢
    exact ⟨h0.1, by simp [hkne]⟩
  have hall' := all_schema_replace pre post key (.text b sa nxt) (.text b sa k) hall hsch
  refine ⟨hri', hall', ?_⟩
  rw [validatorAccepts, hri']
  simp

theorem optionsSchema_mutation (opre opost : List TreeOption) (o : TreeOption) (k : String)
    (hkne : (k == "") = false)
    (hall : (opre ++ o :: opost).all optionSchemaOk = true) :
    (opre ++ (⟨o.id, o.title, k⟩ : TreeOption) :: opost).all optionSchemaOk = true := by
  rw [List.all_eq_true] at hall ⊢
  intro u hu
  rcases List.mem_append.mp hu with h | h
  · exact hall u (List.mem_append_left _ h)
  · rcases List.mem_cons.mp h with h | h
    · rw [h]
      have ho := hall o (List.mem_append_right _ (List.mem_cons_self _ _))
      simp only [optionSchemaOk, Bool.and_eq_true] at ho ⊢
      exact ⟨ho.1, by simp [hkne]⟩
    · exact hall u (List.mem_append_right _ (List.mem_cons_of_mem _ h))

theorem option_mutation_core (nodes nodes2 : NodeMap) (key k : String)
    (opre opost : List TreeOption) (o : TreeOption)
    (hsame : ∀ c, (lookupKey nodes2 c).isSome = (lookupKey nodes c).isSome)
    (hopts : ∀ u ∈ opre ++ o :: opost, (lookupKey nodes u.next).isSome = true)
    (hmiss : (lookupKey nodes k).isSome = false) :
    optionIssues nodes2 key 0 (opre ++ (⟨o.id, o.title, k⟩ : TreeOption) :: opost)
      = [.danglingOptionNext key opre.length o.id k] := by
  have hpre : ∀ u ∈ opre, (lookupKey nodes2 u.next).isSome = true := by
    intro u hu
    rw [hsame]
    exact hopts u (List.mem_append_left _ hu)
  have hpost : ∀ u ∈ opost, (lookupKey nodes2 u.next).isSome = true := by
    intro u hu
    rw [hsame]
    exact hopts u (List.mem_append_right _ (List.mem_cons_of_mem _ hu))
  exact optionIssues_single_dangling nodes2 key opre opost ⟨o.id, o.title, k⟩ hpre hpost
    ((hsame k).trans hmiss)

theorem list_option_mutation_detected (pre post : NodeMap) (key b k : String)
    (sa : Option String) (opre opost : List TreeOption) (o : TreeOption)
    (hacc : validatorAccepts (pre ++ (key, .list b sa (opre ++ o :: opost)) :: post) = true)
    (hkne : (k == "") = false)
    (hmiss : (lookupKey (pre ++ (key, .list b sa (opre ++ o :: opost)) :: post) k).isSome
      = false) :
    refIssues (pre ++ (key, .list b sa (opre ++ ⟨o.id, o.title, k⟩ :: opost)) :: post)
        = [.danglingOptionNext key opre.length o.id k]
      ∧ (pre ++ (key, .list b sa (opre ++ ⟨o.id, o.title, k⟩ :: opost)) :: post).all
          (fun p => nodeSchemaOk p.2) = true
      ∧ validatorAccepts
          (pre ++ (key, .list b sa (opre ++ ⟨o.id, o.title, k⟩ :: opost)) :: post) = false := by
  obtain ⟨hall, hri⟩ := validatorAccepts_parts hacc
  have hsame : ∀ c,
      (lookupKey (pre ++ (key, Node.list b sa (opre ++ ⟨o.id, o.title, k⟩ :: opost)) :: post)
          c).isSome
      = (lookupKey (pre ++ (key, Node.list b sa (opre ++ o :: opost)) :: post) c).isSome :=
    fun c => lookupKey_replace_isSome pre post key c _ _
  have hmem : ((key, Node.list b sa (opre ++ o :: opost))
      ∈ pre ++ (key, Node.list b sa (opre ++ o :: opost)) :: post) :=
    List.mem_append_right _ (List.mem_cons_self _ _)
  have hclosed := ((refIssues_eq_nil_iff _).mp hri).2.2 _ hmem
  simp only [nodeIssues] at hclosed
  have hopts := (optionIssues_eq_nil_iff _ key 0 _).mp hclosed
  have hri' : refIssues (pre ++ (key, Node.list b sa (opre ++ ⟨o.id, o.title, k⟩ :: opost)) :: post)
      = [.danglingOptionNext key opre.length o.id k] := by
    rw [refIssues_replace pre post key _ _ hri]
    simp only [nodeIssues]
    exact option_mutation_core _ _ key k opre opost o hsame hopts hmiss
  have hschmem : nodeSchemaOk (Node.list b sa (opre ++ o :: opost)) = true :=
    (List.all_eq_true.mp hall) _ hmem
  have hsch : nodeSchemaOk (Node.list b sa (opre ++ ⟨o.id, o.title, k⟩ :: opost)) = true := by
    simp only [nodeSchemaOk, Bool.and_eq_true] at hschmem ⊢
    obtain ⟨⟨hbm, hne⟩, hallopt⟩ := hschmem
    exact ⟨⟨hbm, by simp⟩, optionsSchema_mutation opre opost o k hkne hallopt⟩
  refine ⟨hri', all_schema_replace pre post key _ _ hall hsch, ?_⟩
  rw [validatorAccepts, hri']
  simp

theorem buttons_option_mutation_detected (pre post : NodeMap) (key b k : String)
    (sa : Option String) (opre opost : List TreeOption) (o : TreeOption)
    (hacc : validatorAccepts (pre ++ (key, .buttons b sa (opre ++ o :: opost)) :: post) = true)
    (hkne : (k == "") = false)
    (hmiss : (lookupKey (pre ++ (key, .buttons b sa (opre ++ o :: opost)) :: post) k).isSome
      = false) :
    refIssues (pre ++ (key, .buttons b sa (opre ++ ⟨o.id, o.title, k⟩ :: opost)) :: post)
        = [.danglingOptionNext key opre.length o.id k]
      ∧ (pre ++ (key, .buttons b sa (opre ++ ⟨o.id, o.title, k⟩ :: opost)) :: post).all
          (fun p => nodeSchemaOk p.2) = true
      ∧ validatorAccepts
          (pre ++ (key, .buttons b sa (opre ++ ⟨o.id, o.title, k⟩ :: opost)) :: post) = false := by
  obtain ⟨hall, hri⟩ := validatorAccepts_parts hacc
  have hsame : ∀ c,
      (lookupKey (pre ++ (key, Node.buttons b sa (opre ++ ⟨o.id, o.title, k⟩ :: opost)) :: post)
          c).isSome
      = (lookupKey (pre ++ (key, Node.buttons b sa (opre ++ o :: opost)) :: post) c).isSome :=
    fun c => lookupKey_replace_isSome pre post key c _ _
  have hmem : ((key, Node.buttons b sa (opre ++ o :: opost))
      ∈ pre ++ (key, Node.buttons b sa (opre ++ o :: opost)) :: post) :=
    List.mem_append_right _ (List.mem_cons_self _ _)
  have hclosed := ((refIssues_eq_nil_iff _).mp hri).2.2 _ hmem
  simp only [nodeIssues] at hclosed
  have hopts := (optionIssues_eq_nil_iff _ key 0 _).mp hclosed
  have hri' : refIssues
      (pre ++ (key, Node.buttons b sa (opre ++ ⟨o.id, o.title, k⟩ :: opost)) :: post)
      = [.danglingOptionNext key opre.length o.id k] := by
    rw [refIssues_replace pre post key _ _ hri]
    simp only [nodeIssues]
    exact option_mutation_core _ _ key k opre opost o hsame hopts hmiss
  have hschmem : nodeSchemaOk (Node.buttons b sa (opre ++ o :: opost)) = true :=
    (List.all_eq_true.mp hall) _ hmem
  have hsch : nodeSchemaOk (Node.buttons b sa (opre ++ ⟨o.id, o.title, k⟩ :: opost)) = true := by
    simp only [nodeSchemaOk, Bool.and_eq_true] at hschmem ⊢
    obtain ⟨⟨hbm, hne⟩, hallopt⟩ := hschmem
    exact ⟨⟨hbm, by simp⟩, optionsSchema_mutation opre opost o k hkne hallopt⟩
  refine ⟨hri', all_schema_replace pre post key _ _ hall hsch, ?_⟩
  rw [validatorAccepts, hri']
  simp

/-- Counterexample for C4 as stated: a single text node `start` with an
empty body satisfies every condition of the claimed acceptance
characterisation (non-empty, has `start`, closed references, no
option-less list/buttons node), yet the validator rejects it — the node
schemas also require non-empty strings (`min(1)` on `body`, `saveAs`,
`next`, option `id`/`title`/`next`). -/
theorem validator_acceptance_cex :
    claimAcceptConds [("start", .text "" none "start")] = true
      ∧ validatorAccepts [("start", .text "" none "start")] = false := by
  constructor <;> decide

/-- C4 (amended): the validator accepts a tree iff the mapping is
non-empty, contains `start`, every `next` reference resolves, every
list/buttons node has at least one option, and additionally every
schema-constrained string field is non-empty; and a tree accepted and
then mutated in exactly one `next` reference (direct, or via a list or
buttons option) to a non-empty nonexistent key yields exactly one
violation referencing that node (and option index), with the node
schemas still passing, hence rejection with exactly that diagnostic. -/
theorem validator_acceptance :
    (∀ nodes : NodeMap, validatorAccepts nodes = true ↔
        (claimAcceptConds nodes = true ∧ ∀ p ∈ nodes, nodeStringsOk p.2 = true))
    ∧ (∀ (pre post : NodeMap) (key b nxt k : String) (sa : Option String),
        validatorAccepts (pre ++ (key, .text b sa nxt) :: post) = true →
        (k == "") = false →
        (lookupKey (pre ++ (key, .text b sa nxt) :: post) k).isSome = false →
          refIssues (pre ++ (key, .text b sa k) :: post) = [.danglingNext key k]
            ∧ (pre ++ (key, .text b sa k) :: post).all (fun p => nodeSchemaOk p.2) = true
            ∧ validatorAccepts (pre ++ (key, .text b sa k) :: post) = false)
    ∧ (∀ (pre post : NodeMap) (key b k : String) (sa : Option String)
        (opre opost : List TreeOption) (o : TreeOption),
        validatorAccepts (pre ++ (key, .list b sa (opre ++ o :: opost)) :: post) = true →
        (k == "") = false →
        (lookupKey (pre ++ (key, .list b sa (opre ++ o :: opost)) :: post) k).isSome = false →
          refIssues (pre ++ (key, .list b sa (opre ++ ⟨o.id, o.title, k⟩ :: opost)) :: post)
              = [.danglingOptionNext key opre.length o.id k]
            ∧ (pre ++ (key, .list b sa (opre ++ ⟨o.id, o.title, k⟩ :: opost)) :: post).all
                (fun p => nodeSchemaOk p.2) = true
            ∧ validatorAccepts
                (pre ++ (key, .list b sa (opre ++ ⟨o.id, o.title, k⟩ :: opost)) :: post) = false)
    ∧ (∀ (pre post : NodeMap) (key b k : String) (sa : Option String)
        (opre opost : List TreeOption) (o : TreeOption),
        validatorAccepts (pre ++ (key, .buttons b sa (opre ++ o :: opost)) :: post) = true →
        (k == "") = false →
        (lookupKey (pre ++ (key, .buttons b sa (opre ++ o :: opost)) :: post) k).isSome
          = false →
          refIssues (pre ++ (key, .buttons b sa (opre ++ ⟨o.id, o.title, k⟩ :: opost)) :: post)
              = [.danglingOptionNext key opre.length o.id k]
            ∧ (pre ++ (key, .buttons b sa (opre ++ ⟨o.id, o.title, k⟩ :: opost)) :: post).all
                (fun p => nodeSchemaOk p.2) = true
            ∧ validatorAccepts
                (pre ++ (key, .buttons b sa (opre ++ ⟨o.id, o.title, k⟩ :: opost)) :: post)
              = false) := by
  refine ⟨validator_iff, ?_, ?_, ?_⟩
  · intro pre post key b nxt k sa hacc hkne hmiss
    exact text_mutation_detected pre post key b nxt k sa hacc hkne hmiss
  · intro pre post key b k sa opre opost o hacc hkne hmiss
    exact list_option_mutation_detected pre post key b k sa opre opost o hacc hkne hmiss
  · intro pre post key b k sa opre opost o hacc hkne hmiss
    exact buttons_option_mutation_detected pre post key b k sa opre opost o hacc hkne hmiss

/-- Witness for C4: the two-node tree `start -> done` is accepted;
redirecting `start`'s `next` to the nonexistent `"ghost"` produces
exactly the one dangling-reference violation naming node `start`. -/
theorem validator_acceptance_witness :
    validatorAccepts [("start", Node.text "hi" none "done"), ("done", Node.end_ "bye" none)]
        = true
      ∧ refIssues [("start", Node.text "hi" none "ghost"), ("done", Node.end_ "bye" none)]
        = [.danglingNext "start" "ghost"]
      ∧ validatorAccepts [("start", Node.text "hi" none "ghost"), ("done", Node.end_ "bye" none)]
        = false :=
  have h := validator_acceptance.2.1 [] [("done", Node.end_ "bye" none)] "start" "hi" "done"
    "ghost" none (by decide) (by decide) (by decide)
  ⟨by decide, h.1, h.2.2⟩

end WaLeads
